import Mathlib

/-!
Verification of the focusmusic scheduling and modulation engine.

This file gives a shallow embedding of the core of the repository:
the lookahead tick scheduler (src/clock.ts), the noise-based modulation
system (src/modulation.ts), the resource-lifecycle counter
(src/diagnostics.ts), and the transient-unit lifecycle logic of the
layers (src/layers/beat.ts, src/layers/arp.ts, src/layers/texture.ts,
src/layers/pad.ts).  JavaScript numbers are modelled as rationals,
Math.floor as the integer floor, and the deterministic 2-D noise field of
the external simplex-noise library as an opaque function attached to each
Modulator instance (the library documents its output range as [-1, 1]).
-/

namespace FocusMusic

/-! ### Clock state and timing arithmetic (src/clock.ts) -/

/-- ticksPerBeat = 4 (16th notes). -/
def ticksPerBeat : ℤ := 4

/-- beatsPerBar = 4. -/
def beatsPerBar : ℤ := 4

/-- barsPerPhrase = 4. -/
def barsPerPhrase : ℤ := 4

/-- The configuration of a Clock that the scheduling math reads:
its bpm and the startTime anchor captured by start(). -/
structure Clock where
  bpm : ℚ
  startTime : ℚ

/-- setBpm's clamp: Math.max(60, Math.min(140, bpm)). -/
def clampBpm (x : ℚ) : ℚ := max 60 (min 140 x)

/-- Clock.setBpm stores the clamped bpm. -/
def Clock.setBpm (c : Clock) (x : ℚ) : Clock := { c with bpm := clampBpm x }

/-- Clock.getBpm returns the stored bpm. -/
def Clock.getBpm (c : Clock) : ℚ := c.bpm

/-- tickDuration = 60 / bpm / ticksPerBeat. -/
def tickDuration (bpm : ℚ) : ℚ := 60 / bpm / 4

/-- beatDuration = 60 / bpm. -/
def beatDuration (bpm : ℚ) : ℚ := 60 / bpm

/-- The lookahead window: scheduleAhead = 0.1 seconds. -/
def scheduleAhead : ℚ := 1 / 10

/-- The target tick of one scheduling pass:
Math.floor(elapsed / tickTime + scheduleAhead / tickTime). -/
def targetTick (startTime bpm now : ℚ) : ℤ :=
  ⌊(now - startTime) / tickDuration bpm + scheduleAhead / tickDuration bpm⌋

/-- The ideal start time of a tick: startTime + tick * tickTime. -/
def tickStartTime (startTime bpm : ℚ) (tick : ℤ) : ℚ :=
  startTime + tick * tickDuration bpm

/-! ### Event fan-out of one tick (the body of the for-loop in Clock.start) -/

/-- Which of the four callbacks a fired event invoked. -/
inductive EvKind
  | tick
  | beat
  | bar
  | phrase
deriving DecidableEq, Repr

/-- A subscribed listener, as the Clock sees it: which of the four
optional callbacks it implements. -/
structure ListenerShape where
  hasTick : Bool
  hasBeat : Bool
  hasBar : Bool
  hasPhrase : Bool
deriving DecidableEq, Repr

/-- One delivered callback: which listener, which callback, the counter
value passed, the tick being processed when it fired, and the time value
passed. -/
structure Event where
  listener : ℕ
  kind : EvKind
  index : ℤ
  tk : ℤ
  time : ℚ
deriving DecidableEq, Repr

/-- The callbacks delivered to one listener while the Clock processes one
tick: onTick always, onBeat when tickInBeat = 0, onBar when additionally
beatInBar = 0, onPhrase when additionally barInPhrase = 0, in exactly
that order, all with the same time value. -/
def eventsForListener (i : ℕ) (s : ListenerShape) (tick : ℤ) (time : ℚ) :
    List Event :=
  let beat := tick / ticksPerBeat
  let bar := beat / beatsPerBar
  let phrase := bar / barsPerPhrase
  let tickInBeat := tick % ticksPerBeat
  let beatInBar := beat % beatsPerBar
  let barInPhrase := bar % barsPerPhrase
  (if s.hasTick then [⟨i, .tick, tick, tick, time⟩] else [])
    ++ (if tickInBeat = 0 then
          (if s.hasBeat then [⟨i, .beat, beat, tick, time⟩] else []) else [])
    ++ (if tickInBeat = 0 ∧ beatInBar = 0 then
          (if s.hasBar then [⟨i, .bar, bar, tick, time⟩] else []) else [])
    ++ (if tickInBeat = 0 ∧ beatInBar = 0 ∧ barInPhrase = 0 then
          (if s.hasPhrase then [⟨i, .phrase, phrase, tick, time⟩] else [])
        else [])

/-- Processing one tick: this.listeners.forEach(l => ...), every listener
in subscription order, each receiving its callbacks for this tick. -/
def fireTick (startTime bpm : ℚ) (ls : List ListenerShape) (tick : ℤ) :
    List Event :=
  ls.enum.flatMap fun p =>
    eventsForListener p.1 p.2 tick (tickStartTime startTime bpm tick)

/-- The ticks fired in one pass: lastScheduledTick + 1 up to targetTick. -/
def passTicks (last target : ℤ) : List ℤ :=
  (List.range (target - last).toNat).map fun k : ℕ => last + 1 + (k : ℤ)

/-- One observed scheduling pass: the external time at which it ran and
the bpm in effect (setBpm may have been called between passes). -/
structure PassInput where
  now : ℚ
  bpm : ℚ

/-- The events fired by one scheduling pass. -/
def passEvents (startTime bpm : ℚ) (ls : List ListenerShape) (last : ℤ)
    (now : ℚ) : List Event :=
  (passTicks last (targetTick startTime bpm now)).flatMap
    (fireTick startTime bpm ls)

/-- The tick numbers fired over a session: each pass fires
lastScheduledTick + 1 .. targetTick and then stores
lastScheduledTick := targetTick (exactly as the code does, with no
clamping of a backwards move). start() enters with last = -1. -/
def sessionTicks (startTime : ℚ) : ℤ → List PassInput → List ℤ
  | _, [] => []
  | last, p :: ps =>
    passTicks last (targetTick startTime p.bpm p.now)
      ++ sessionTicks startTime (targetTick startTime p.bpm p.now) ps

/-- The full callback trace over a session, in delivery order. -/
def sessionEvents (startTime : ℚ) (ls : List ListenerShape) :
    ℤ → List PassInput → List Event
  | _, [] => []
  | last, p :: ps =>
    passEvents startTime p.bpm ls last p.now
      ++ sessionEvents startTime ls (targetTick startTime p.bpm p.now) ps

/-- The counter relations the spec asserts of every fired event:
a beat event carries floor(tick/4), a bar event floor(beat/4), a phrase
event floor(bar/4). -/
def eventDerived (e : Event) : Prop :=
  match e.kind with
  | .tick => e.index = e.tk
  | .beat => e.index = e.tk / 4
  | .bar => e.index = e.tk / 4 / 4
  | .phrase => e.index = e.tk / 4 / 4 / 4

/-! ### Live-array delivery with unsubscribe (Clock.subscribe/unsubscribe)

The code iterates this.listeners.forEach(...) over the live array while
unsubscribe does indexOf + splice(idx, 1).  A listener is modelled by its
identity and the set of unsubscribe calls its onTick callback performs. -/

/-- A listener together with the unsubscribe calls its callback makes. -/
structure CbListener where
  id : ℕ
  unsubs : List ℕ
deriving DecidableEq, Repr

/-- Clock.unsubscribe: indexOf (first matching position) followed by
splice(idx, 1); no change when the listener is not found. -/
def unsubscribeAt (arr : List CbListener) (i : ℕ) : List CbListener :=
  match arr.findIdx? (fun l => l.id == i) with
  | some idx => arr.eraseIdx idx
  | none => arr

/-- The side effect of one listener's callback on the listener array. -/
def runCallbacks (l : CbListener) (arr : List CbListener) : List CbListener :=
  l.unsubs.foldl unsubscribeAt arr

/-- Array.prototype.forEach over the live array: the iteration bound is
the length captured at the start, each index is visited only while it
still denotes an element, and each visited listener's callback may splice
the array before the next index is visited. -/
def fireLoop : ℕ → List CbListener → ℕ → List ℕ
  | 0, _, _ => []
  | n + 1, arr, k =>
    if h : k < arr.length then
      (arr.get ⟨k, h⟩).id ::
        fireLoop n (runCallbacks (arr.get ⟨k, h⟩) arr) (k + 1)
    else
      fireLoop n arr (k + 1)

/-- The listeners that actually receive a firing pass, in order. -/
def forEachFire (arr : List CbListener) : List ℕ :=
  fireLoop arr.length arr 0

/-! ### Modulator (src/modulation.ts) -/

/-- The constructor argument of Modulator. -/
structure ModulatorConfig where
  base : ℚ
  range : ℚ
  speed : ℚ
  seed : Option ℚ

/-- A Modulator instance: the noise field created by
createNoise2D(() => config.seed ?? Math.random()), the mutable config,
and the private offset = Math.random() * 1000. -/
structure Modulator where
  noise : ℚ → ℚ → ℚ
  base : ℚ
  range : ℚ
  speed : ℚ
  offset : ℚ

/-- The Modulator constructor.  noiseFromSeed is the external library's
deterministic map from the rng value to a noise field; randSeed and
randOffset are the two Math.random() draws the constructor may make. -/
def mkModulator (noiseFromSeed : ℚ → ℚ → ℚ → ℚ) (cfg : ModulatorConfig)
    (randSeed randOffset : ℚ) : Modulator :=
  { noise := noiseFromSeed (cfg.seed.getD randSeed)
    base := cfg.base
    range := cfg.range
    speed := cfg.speed
    offset := randOffset * 1000 }

/-- getValue(time) = base + noise2D(time * speed, offset) * range. -/
def Modulator.getValue (m : Modulator) (time : ℚ) : ℚ :=
  m.base + m.noise (time * m.speed) m.offset * m.range

/-- getNormalized(time) = (noise2D(time * speed, offset) + 1) / 2. -/
def Modulator.getNormalized (m : Modulator) (time : ℚ) : ℚ :=
  (m.noise (time * m.speed) m.offset + 1) / 2

/-- setBase mutates only the base. -/
def Modulator.setBase (m : Modulator) (b : ℚ) : Modulator := { m with base := b }

/-- setRange mutates only the range. -/
def Modulator.setRange (m : Modulator) (r : ℚ) : Modulator := { m with range := r }

/-- setSpeed mutates only the speed. -/
def Modulator.setSpeed (m : Modulator) (s : ℚ) : Modulator := { m with speed := s }

/-! ### NodeCounter (src/diagnostics.ts) -/

/-- The process-wide node counter: running created/cleaned totals. -/
structure NodeCounter where
  created : ℕ
  cleaned : ℕ
deriving DecidableEq, Repr

/-- create(count) adds to the created total. -/
def NodeCounter.create (c : NodeCounter) (n : ℕ) : NodeCounter :=
  { c with created := c.created + n }

/-- cleanup(count) adds to the cleaned total. -/
def NodeCounter.cleanup (c : NodeCounter) (n : ℕ) : NodeCounter :=
  { c with cleaned := c.cleaned + n }

/-- getActive() = created - cleaned (as integers; the JS subtraction can
go negative). -/
def NodeCounter.getActive (c : NodeCounter) : ℤ :=
  (c.created : ℤ) - (c.cleaned : ℤ)

/-- The record returned by getStats(). -/
structure NodeStats where
  created : ℕ
  cleaned : ℕ
  active : ℤ
deriving DecidableEq, Repr

/-- getStats() = { created, cleaned, active: created - cleaned }. -/
def NodeCounter.getStats (c : NodeCounter) : NodeStats :=
  { created := c.created, cleaned := c.cleaned
    active := (c.created : ℤ) - (c.cleaned : ℤ) }

/-- reset() zeroes both totals. -/
def NodeCounter.reset (_ : NodeCounter) : NodeCounter := ⟨0, 0⟩

/-- One call observed by the counter. -/
inductive CounterOp
  | create (n : ℕ)
  | cleanup (n : ℕ)
deriving DecidableEq, Repr

/-- Apply one call. -/
def applyOp (c : NodeCounter) : CounterOp → NodeCounter
  | .create n => c.create n
  | .cleanup n => c.cleanup n

/-- Apply a call sequence in order. -/
def applyOps (c : NodeCounter) (ops : List CounterOp) : NodeCounter :=
  ops.foldl applyOp c

/-- The counts of the create calls of a sequence, in order. -/
def createCounts (ops : List CounterOp) : List ℕ :=
  ops.filterMap fun o => match o with
    | .create n => some n
    | .cleanup _ => none

/-- The counts of the cleanup calls of a sequence, in order. -/
def cleanupCounts (ops : List CounterOp) : List ℕ :=
  ops.filterMap fun o => match o with
    | .create _ => none
    | .cleanup n => some n

/-! ### Transient-unit teardown timing (src/layers/beat.ts, arp.ts)

Each transient unit is scheduled to sound at a future time value handed
out by the Clock, while its cleanup setTimeout counts from the wall-clock
moment the tick handler ran (callNow).  The delays below are the
literal constants of the code. -/

/-- The kick parameters the timing logic reads. -/
structure KickParams where
  attack : ℚ
  decay : ℚ
  clickAmount : ℚ
deriving DecidableEq, Repr

/-- The Deep House kit's kick (src/kits.ts): attack 0.005, decay 0.3,
clickAmount 0.15. -/
def deepHouseKick : KickParams :=
  { attack := 5 / 1000, decay := 3 / 10, clickAmount := 15 / 100 }

/-- playKick teardown: setTimeout((kick.decay + 0.1) * 1000) from the call
moment. -/
def kickCleanupTime (callNow : ℚ) (k : KickParams) : ℚ :=
  callNow + (k.decay + 1 / 10)

/-- The kick's amplitude envelope reaches 0 at time + decay. -/
def kickGainEndTime (time : ℚ) (k : KickParams) : ℚ := time + k.decay

/-- playClick teardown: setTimeout(50) from the call moment. -/
def clickCleanupTime (callNow : ℚ) : ℚ := callNow + 50 / 1000

/-- The click's amplitude envelope reaches 0 at time + 0.012. -/
def clickGainEndTime (time : ℚ) : ℚ := time + 12 / 1000

/-- playNoiseTransient teardown: setTimeout(100) from the call moment. -/
def noiseCleanupTime (callNow : ℚ) : ℚ := callNow + 100 / 1000

/-- The noise burst's amplitude envelope reaches 0 at time + 0.04. -/
def noiseGainEndTime (time : ℚ) : ℚ := time + 4 / 100

/-- playGhostKick teardown: setTimeout(150) from the call moment. -/
def ghostCleanupTime (callNow : ℚ) : ℚ := callNow + 150 / 1000

/-- The ghost kick's amplitude envelope reaches 0 at time + 0.08. -/
def ghostGainEndTime (time : ℚ) : ℚ := time + 8 / 100

/-- ArpLayer.playNote teardown: setTimeout((noteDuration + 0.2) * 1000)
from the call moment. -/
def arpCleanupTime (callNow noteDuration : ℚ) : ℚ :=
  callNow + (noteDuration + 2 / 10)

/-- The arp note's amplitude envelope reaches 0.001 at
time + noteDuration. -/
def arpGainEndTime (time noteDuration : ℚ) : ℚ := time + noteDuration

/-- The four-on-floor pattern of getPattern (src/kits.ts). -/
def fourOnFloor : List Bool :=
  [true, false, false, false, true, false, false, false,
   true, false, false, false, true, false, false, false]

/-- BeatLayer.onTick's pattern index: tick % pattern.length. -/
def beatPatternIndex (pattern : List Bool) (tick : ℤ) : ℕ :=
  (tick % (pattern.length : ℤ)).toNat

/-- BeatLayer.onTick's swing offset: swing * 0.02 on odd pattern steps
when the kit has swing. -/
def swingOffset (swing : ℚ) (patternIndex : ℕ) : ℚ :=
  if 0 < swing ∧ patternIndex % 2 = 1 then swing * (2 / 100) else 0

/-- Whether BeatLayer.onTick plays a full kick at this tick. -/
def firesKick (pattern : List Bool) (tick : ℤ) : Bool :=
  pattern.getD (beatPatternIndex pattern tick) false

/-! ### Deferred hard-stop callbacks of the layers' stop()
(src/layers/texture.ts, pad.ts, beat.ts)

An audio source's stop() throws when start() was never called; the
deferred callbacks wrap each stop() in try/catch. -/

/-- The lifecycle of an external sound source. -/
inductive SourceState
  | created
  | started
  | stopped
deriving DecidableEq, Repr

/-- AudioScheduledSourceNode.stop(): throws InvalidStateError when the
source was never started, otherwise stops it. -/
def sourceStop : SourceState → Except String SourceState
  | .created => .error "InvalidStateError"
  | .started => .ok .stopped
  | .stopped => .ok .stopped

/-- Sequence a list of statements, propagating the first uncaught
exception (the body of a deferred callback). -/
def seqAll : List (Except String Unit) → Except String Unit
  | [] => .ok ()
  | a :: rest =>
    match a with
    | .ok _ => seqAll rest
    | .error e => .error e

/-- One statement of the form: try { src.stop() } catch { }. -/
def tryStopStmt (s : SourceState) : Except String Unit :=
  match sourceStop s with
  | .ok _ => .ok ()
  | .error _ => .ok ()

/-- TextureLayer.stop's deferred callback:
try { this.noiseSource?.stop() } catch { }. -/
def textureDeferredStop (src : Option SourceState) : Except String Unit :=
  match src with
  | none => .ok ()
  | some s => tryStopStmt s

/-- PadLayer.stop's deferred callback:
this.oscillators.forEach(osc => { try { osc.stop() } catch { } }). -/
def padDeferredStop (oscs : List SourceState) : Except String Unit :=
  seqAll (oscs.map tryStopStmt)

/-- BeatLayer.stop's deferred callback:
try { this.subOsc?.stop() } catch { }. -/
def beatDeferredStop (subOsc : Option SourceState) : Except String Unit :=
  match subOsc with
  | none => .ok ()
  | some s => tryStopStmt s

/-! ### PadLayer's deferred chord mutation (src/layers/pad.ts) -/

/-- The shared engine state the pad layer's callback reads and writes. -/
structure EngineState where
  root : ℤ
  scale : List ℤ
deriving DecidableEq, Repr

/-- The root clamp inside the callback: Math.max(36, Math.min(60, x)). -/
def clampRoot (x : ℤ) : ℤ := max 36 (min 60 x)

/-- PadLayer.buildChord: [root, root + scale[2],
root + scale[min(4, scale.length - 1)], root + 12]. -/
def buildChord (st : EngineState) : List ℤ :=
  [st.root,
   st.root + st.scale.getD 2 0,
   st.root + st.scale.getD (min 4 (st.scale.length - 1)) 0,
   st.root + 12]

/-- The deferred callback PadLayer.onPhrase schedules when it picks a
nonzero interval: temporarily set the clamped shifted root, rebuild the
chord, then restore the original root.  Returns the final engine state
and the chord handed to startOscillators. -/
def chordMutationCallback (st : EngineState) (interval : ℤ) :
    EngineState × List ℤ :=
  let newRoot := st.root + interval
  let oldRoot := st.root
  let stShifted : EngineState := { st with root := clampRoot newRoot }
  let chord := buildChord stShifted
  let stRestored : EngineState := { stShifted with root := oldRoot }
  (stRestored, chord)

/-! ### Auxiliary notions for the Clock theorems -/

/-- The integer interval a + 0, a + 1, ..., a + (n - 1). -/
def intRange (a : ℤ) (n : ℕ) : List ℤ :=
  (List.range n).map fun k : ℕ => a + (k : ℤ)

/-- Between two consecutive scheduling passes the external time has not
gone backwards and the bpm has not been lowered. -/
def passMono (p q : PassInput) : Prop := p.now ≤ q.now ∧ p.bpm ≤ q.bpm

/-! ## Theorems -/

/-! ### Clock timing lemmas -/

theorem tickDuration_pos {b : ℚ} (hb : 0 < b) : 0 < tickDuration b := by
  unfold tickDuration
  positivity

theorem targetTick_nonneg {s b now : ℚ} (hb : 0 < b) (hnow : s ≤ now) :
    0 ≤ targetTick s b now := by
  have hd := tickDuration_pos hb
  unfold targetTick
  rw [Int.floor_nonneg]
  have h1 : 0 ≤ (now - s) / tickDuration b :=
    div_nonneg (by linarith) hd.le
  have h2 : 0 ≤ scheduleAhead / tickDuration b := by
    unfold scheduleAhead
    positivity
  linarith

theorem targetTick_mono (s : ℚ) {b b' now now' : ℚ} (hb : 0 < b)
    (hbb : b ≤ b') (hnow : now ≤ now') (hs : s ≤ now) :
    targetTick s b now ≤ targetTick s b' now' := by
  have hb' : 0 < b' := lt_of_lt_of_le hb hbb
  have hd := tickDuration_pos hb
  have hd' := tickDuration_pos hb'
  have hdd : tickDuration b' ≤ tickDuration b := by
    unfold tickDuration
    gcongr
  unfold targetTick
  apply Int.floor_le_floor
  rw [div_add_div_same, div_add_div_same]
  have hsa : (0 : ℚ) ≤ scheduleAhead := by
    unfold scheduleAhead
    norm_num
  apply div_le_div₀ (by linarith) (by linarith) hd' hdd

theorem intRange_length (a : ℤ) (n : ℕ) : (intRange a n).length = n := by
  simp [intRange]

theorem intRange_get (a : ℤ) (n i : ℕ) (h : i < (intRange a n).length) :
    (intRange a n).get ⟨i, h⟩ = a + i := by
  simp [intRange, List.get_eq_getElem]

theorem intRange_append (a : ℤ) (n m : ℕ) :
    intRange a (n + m) = intRange a n ++ intRange (a + n) m := by
  unfold intRange
  rw [List.range_add, List.map_append, List.map_map]
  congr 1
  apply List.map_congr_left
  intro k _
  simp only [Function.comp_apply]
  push_cast
  ring

theorem mem_passTicks {last t x : ℤ} :
    x ∈ passTicks last t ↔ last < x ∧ x ≤ t := by
  unfold passTicks
  simp only [List.mem_map, List.mem_range]
  constructor
  · rintro ⟨k, hk, rfl⟩
    omega
  · rintro ⟨h1, h2⟩
    exact ⟨(x - last - 1).toNat, by omega, by omega⟩

theorem passTicks_pairwise (last t : ℤ) :
    (passTicks last t).Pairwise (· ≤ ·) := by
  unfold passTicks
  exact List.Pairwise.map _ (fun a b h => by omega) (List.pairwise_lt_range _)

/-- Every event produced for one listener at one tick belongs to that
tick, carries the handed-in time, and carries the derived counter. -/
theorem eventsForListener_mem {i : ℕ} {sh : ListenerShape} {tick : ℤ}
    {time : ℚ} {e : Event} (he : e ∈ eventsForListener i sh tick time) :
    e.tk = tick ∧ e.time = time ∧ eventDerived e := by
  unfold eventsForListener at he
  simp only [List.mem_append] at he
  rcases he with ((h | h) | h) | h <;>
    split_ifs at h <;>
      simp_all [eventDerived, ticksPerBeat, beatsPerBar, barsPerPhrase]

theorem fireTick_mem {s b : ℚ} {ls : List ListenerShape} {tick : ℤ}
    {e : Event} (he : e ∈ fireTick s b ls tick) :
    e.tk = tick ∧ e.time = tickStartTime s b tick ∧ eventDerived e := by
  unfold fireTick at he
  rw [List.mem_flatMap] at he
  obtain ⟨p, _, hp⟩ := he
  exact eventsForListener_mem hp

theorem passEvents_mem {s b : ℚ} {ls : List ListenerShape} {last : ℤ}
    {now : ℚ} {e : Event} (he : e ∈ passEvents s b ls last now) :
    last < e.tk ∧ e.tk ≤ targetTick s b now ∧
      e.time = tickStartTime s b e.tk ∧ eventDerived e := by
  unfold passEvents at he
  rw [List.mem_flatMap] at he
  obtain ⟨tick, htick, hf⟩ := he
  obtain ⟨htk, htime, hd⟩ := fireTick_mem hf
  subst htk
  obtain ⟨h1, h2⟩ := mem_passTicks.mp htick
  exact ⟨h1, h2, htime, hd⟩

theorem flatMap_pairwise_tk (ts : List ℤ) (f : ℤ → List Event)
    (hf : ∀ t e, e ∈ f t → e.tk = t) (hts : ts.Pairwise (· ≤ ·)) :
    (ts.flatMap f).Pairwise (fun a b => a.tk ≤ b.tk) := by
  induction ts with
  | nil => simp
  | cons t ts ih =>
    rw [List.flatMap_cons, List.pairwise_append]
    obtain ⟨hhead, htail⟩ := List.pairwise_cons.mp hts
    refine ⟨List.pairwise_of_forall_mem_list ?_, ih htail, ?_⟩
    · intro a ha b hb
      rw [hf t a ha, hf t b hb]
    · intro a ha b hb
      rw [List.mem_flatMap] at hb
      obtain ⟨u, hu, hbu⟩ := hb
      rw [hf t a ha, hf u b hbu]
      exact hhead u hu

/-- If the next pass is monotone (time and bpm), its target is at least
the current pass's target. -/
theorem chain_head_target (s : ℚ) {p : PassInput} {ps : List PassInput}
    (hbp : 0 < p.bpm) (hsp : s ≤ p.now)
    (hchain : List.Chain' passMono (p :: ps)) :
    ∀ q, ps.head? = some q →
      targetTick s p.bpm p.now ≤ targetTick s q.bpm q.now := by
  intro q hq
  cases ps with
  | nil => simp at hq
  | cons q' ps' =>
    simp only [List.head?_cons, Option.some.injEq] at hq
    obtain rfl := hq
    have hrel := (List.chain'_cons.mp hchain).1
    exact targetTick_mono s hbp hrel.2 hrel.1 hsp

/-- Under monotone passes the fired tick list is a consecutive integer
interval starting right after the incoming lastScheduledTick. -/
theorem sessionTicks_eq (s : ℚ) (ps : List PassInput) :
    ∀ last : ℤ,
      (∀ p ∈ ps, 0 < p.bpm) →
      List.Chain' passMono ps →
      (∀ p ∈ ps, s ≤ p.now) →
      (∀ p, ps.head? = some p → last ≤ targetTick s p.bpm p.now) →
      ∃ n : ℕ, sessionTicks s last ps = intRange (last + 1) n := by
  induction ps with
  | nil =>
    intro last _ _ _ _
    exact ⟨0, by simp [sessionTicks, intRange]⟩
  | cons p ps ih =>
    intro last hb hchain hs hlast
    have hlt : last ≤ targetTick s p.bpm p.now := hlast p rfl
    have hbp : 0 < p.bpm := hb p (List.mem_cons_self p ps)
    have hsp : s ≤ p.now := hs p (List.mem_cons_self p ps)
    obtain ⟨m, hm⟩ := ih (targetTick s p.bpm p.now)
      (fun q hq => hb q (List.mem_cons_of_mem p hq))
      hchain.tail
      (fun q hq => hs q (List.mem_cons_of_mem p hq))
      (chain_head_target s hbp hsp hchain)
    refine ⟨(targetTick s p.bpm p.now - last).toNat + m, ?_⟩
    have hbase : (last + 1) + ((targetTick s p.bpm p.now - last).toNat : ℤ)
        = targetTick s p.bpm p.now + 1 := by omega
    simp only [sessionTicks]
    rw [hm, intRange_append, hbase]
    rfl

/-- Every event of any session satisfies the derived-counter relations
and carries the ideal time of its tick as computed from the bpm of the
pass that fired it. -/
theorem sessionEvents_derived (s : ℚ) (ls : List ListenerShape)
    (ps : List PassInput) :
    ∀ last : ℤ, ∀ e ∈ sessionEvents s ls last ps, eventDerived e := by
  induction ps with
  | nil =>
    intro last e he
    simp [sessionEvents] at he
  | cons p ps ih =>
    intro last e he
    simp only [sessionEvents, List.mem_append] at he
    rcases he with he | he
    · exact (passEvents_mem he).2.2.2
    · exact ih _ e he

/-- Under monotone passes the session trace is ordered by tick: all
callbacks for one tick come before any callback for a later tick; and
every event's tick is beyond the incoming lastScheduledTick. -/
theorem sessionEvents_ordered (s : ℚ) (ls : List ListenerShape)
    (ps : List PassInput) :
    ∀ last : ℤ,
      (∀ p ∈ ps, 0 < p.bpm) →
      List.Chain' passMono ps →
      (∀ p ∈ ps, s ≤ p.now) →
      (∀ p, ps.head? = some p → last ≤ targetTick s p.bpm p.now) →
      (sessionEvents s ls last ps).Pairwise (fun a b => a.tk ≤ b.tk) ∧
        ∀ e ∈ sessionEvents s ls last ps, last < e.tk := by
  induction ps with
  | nil =>
    intro last _ _ _ _
    refine ⟨by simp [sessionEvents], ?_⟩
    intro e he
    simp [sessionEvents] at he
  | cons p ps ih =>
    intro last hb hchain hs hlast
    have hlt : last ≤ targetTick s p.bpm p.now := hlast p rfl
    have hbp : 0 < p.bpm := hb p (List.mem_cons_self p ps)
    have hsp : s ≤ p.now := hs p (List.mem_cons_self p ps)
    obtain ⟨ihPW, ihLB⟩ := ih (targetTick s p.bpm p.now)
      (fun q hq => hb q (List.mem_cons_of_mem p hq))
      hchain.tail
      (fun q hq => hs q (List.mem_cons_of_mem p hq))
      (chain_head_target s hbp hsp hchain)
    have hpassPW :
        (passEvents s p.bpm ls last p.now).Pairwise
          (fun a b => a.tk ≤ b.tk) := by
      unfold passEvents
      exact flatMap_pairwise_tk _ _ (fun tick e he => (fireTick_mem he).1)
        (passTicks_pairwise _ _)
    have hpassB : ∀ e ∈ passEvents s p.bpm ls last p.now,
        last < e.tk ∧ e.tk ≤ targetTick s p.bpm p.now := fun e he =>
      ⟨(passEvents_mem he).1, (passEvents_mem he).2.1⟩
    constructor
    · simp only [sessionEvents]
      rw [List.pairwise_append]
      exact ⟨hpassPW, ihPW, fun a ha b hb' =>
        le_trans (hpassB a ha).2 (le_of_lt (ihLB b hb'))⟩
    · intro e he
      simp only [sessionEvents, List.mem_append] at he
      rcases he with he | he
      · exact (hpassB e he).1
      · exact lt_of_le_of_lt hlt (ihLB e he)

/-! ## Theorems for the claims -/

/-! ### C1: tick sequence of one session -/

/-- A session of three monotone-in-time passes whose bpm is lowered
(through the legal setBpm range) between the first and the second. -/
def badPasses : List PassInput := [⟨1, 140⟩, ⟨23 / 20, 60⟩, ⟨7 / 5, 60⟩]

/-- Counterexample to C1 as stated: with a monotone time source but a
bpm lowered mid-session, the fired tick sequence is not strictly
increasing — the pass after the bpm drop moves lastScheduledTick
backwards and tick 6 is fired again after tick 10. -/
theorem clock_refire_counterexample :
    ((1 : ℚ) ≤ 23 / 20 ∧ (23 / 20 : ℚ) ≤ 7 / 5 ∧ (0 : ℚ) ≤ 1) ∧
    ¬ (sessionTicks 0 (-1) badPasses).Pairwise (fun a b : ℤ => a < b) := by
  constructor
  · norm_num
  · have h1 : targetTick 0 140 1 = 10 := by
      norm_num [targetTick, tickDuration, scheduleAhead]
    have h2 : targetTick 0 60 (23 / 20) = 5 := by
      norm_num [targetTick, tickDuration, scheduleAhead]
    have h3 : targetTick 0 60 (7 / 5) = 6 := by
      norm_num [targetTick, tickDuration, scheduleAhead]
    simp only [badPasses, sessionTicks, h1, h2, h3]
    decide

/-- C1 (amended): in a session begun by start() (counters reset,
lastScheduledTick = -1) with a monotone external time source and a bpm
that is never lowered between passes, the fired tick sequence is exactly
0, 1, 2, ... with no gaps or repeats; every fired event carries the
derived counters beat = floor(tick/4), bar = floor(beat/4),
phrase = floor(bar/4); and the callback trace is ordered by tick, so all
listener callbacks for one tick occur before any callback for a later
tick. -/
theorem clock_session_spec (s : ℚ) (ls : List ListenerShape)
    (ps : List PassInput) (i : ℕ) (e : Event)
    (hb : ∀ p ∈ ps, 0 < p.bpm)
    (hchain : List.Chain' passMono ps)
    (hs : ∀ p ∈ ps, s ≤ p.now)
    (hi : i < (sessionTicks s (-1) ps).length)
    (he : e ∈ sessionEvents s ls (-1) ps) :
    (sessionTicks s (-1) ps).get ⟨i, hi⟩ = (i : ℤ) ∧
    eventDerived e ∧
    (sessionEvents s ls (-1) ps).Pairwise (fun a b => a.tk ≤ b.tk) := by
  have hlast : ∀ p, ps.head? = some p →
      (-1 : ℤ) ≤ targetTick s p.bpm p.now := by
    intro p hp
    have hmem : p ∈ ps := by
      cases ps with
      | nil => simp at hp
      | cons q ps' =>
        simp only [List.head?_cons, Option.some.injEq] at hp
        obtain rfl := hp
        exact List.mem_cons_self _ _
    have := targetTick_nonneg (hb p hmem) (hs p hmem)
    omega
  obtain ⟨n, hn⟩ := sessionTicks_eq s ps (-1) hb hchain hs hlast
  obtain ⟨hPW, _⟩ := sessionEvents_ordered s ls ps (-1) hb hchain hs hlast
  refine ⟨?_, sessionEvents_derived s ls ps (-1) e he, hPW⟩
  have hg := List.get_of_eq hn ⟨i, hi⟩
  rw [hg, intRange_get]
  simp only [Fin.coe_cast]
  omega

/-- Witness for the amended C1: one pass at time 0 with bpm 88 fires
exactly tick 0, whose first delivered callback is onTick(0, 0). -/
theorem clock_session_spec_witness :
    (sessionTicks 0 (-1) [⟨0, 88⟩]).get
        ⟨0, by norm_num [sessionTicks, passTicks, targetTick, tickDuration,
          scheduleAhead]⟩ = 0 ∧
    eventDerived ⟨0, .tick, 0, 0, 0⟩ ∧
    (sessionEvents 0 [⟨true, true, true, true⟩] (-1) [⟨0, 88⟩]).Pairwise
      (fun a b => a.tk ≤ b.tk) := by
  have ht : targetTick 0 88 0 = 0 := by
    norm_num [targetTick, tickDuration, scheduleAhead]
  have he : (⟨0, .tick, 0, 0, 0⟩ : Event)
      ∈ sessionEvents 0 [⟨true, true, true, true⟩] (-1) [⟨0, 88⟩] := by
    simp [sessionEvents, passEvents, fireTick, eventsForListener, passTicks,
      ht, tickStartTime, List.enum]
  exact clock_session_spec 0 [⟨true, true, true, true⟩] [⟨0, 88⟩] 0
    ⟨0, .tick, 0, 0, 0⟩
    (by intro p hp; simp at hp; subst hp; norm_num)
    (List.chain'_singleton _)
    (by intro p hp; simp at hp; subst hp; norm_num)
    (by norm_num [sessionTicks, passTicks, targetTick, tickDuration,
      scheduleAhead])
    he

/-! ### C2: ideal times and the four-callback nesting -/

/-- C2: every event fired by one scheduling pass carries the ideal start
time of its tick, startTime + tick * tickDuration, computed from the
pass's bpm — never the pass's wall-clock time; and for a tick on a
phrase boundary a listener implementing all four callbacks receives
exactly onTick, onBeat, onBar, onPhrase in that nesting order, all four
with the same time value and with beat = tick/4, bar = beat/4,
phrase = bar/4. -/
theorem pass_ideal_times (s b : ℚ) (ls : List ListenerShape) (last : ℤ)
    (now : ℚ) (e : Event) (i : ℕ) (tick : ℤ) (time : ℚ)
    (he : e ∈ passEvents s b ls last now) (hdvd : tick % 64 = 0) :
    e.time = tickStartTime s b e.tk ∧
    eventsForListener i ⟨true, true, true, true⟩ tick time =
      [⟨i, .tick, tick, tick, time⟩,
       ⟨i, .beat, tick / 4, tick, time⟩,
       ⟨i, .bar, tick / 4 / 4, tick, time⟩,
       ⟨i, .phrase, tick / 4 / 4 / 4, tick, time⟩] := by
  refine ⟨(passEvents_mem he).2.2.1, ?_⟩
  have h1 : tick % (4 : ℤ) = 0 := by omega
  have h2 : tick / 4 % (4 : ℤ) = 0 := by omega
  have h3 : tick / 4 / 4 % (4 : ℤ) = 0 := by omega
  simp [eventsForListener, ticksPerBeat, beatsPerBar, barsPerPhrase,
    h1, h2, h3]

/-- Witness for C2 at a concrete pass (bpm 60, pass at the start anchor)
and the phrase-boundary tick 64. -/
theorem pass_ideal_times_witness :
    (⟨0, .tick, 0, 0, 0⟩ : Event).time
      = tickStartTime 0 60 (⟨0, .tick, 0, 0, 0⟩ : Event).tk ∧
    eventsForListener 7 ⟨true, true, true, true⟩ 64 5 =
      [⟨7, .tick, 64, 64, 5⟩,
       ⟨7, .beat, 64 / 4, 64, 5⟩,
       ⟨7, .bar, 64 / 4 / 4, 64, 5⟩,
       ⟨7, .phrase, 64 / 4 / 4 / 4, 64, 5⟩] := by
  have ht : targetTick 0 60 0 = 0 := by
    norm_num [targetTick, tickDuration, scheduleAhead]
  have he : (⟨0, .tick, 0, 0, 0⟩ : Event)
      ∈ passEvents 0 60 [⟨true, true, true, true⟩] (-1) 0 := by
    simp [passEvents, fireTick, eventsForListener, passTicks, ht,
      tickStartTime, List.enum]
  exact pass_ideal_times 0 60 [⟨true, true, true, true⟩] (-1) 0
    ⟨0, .tick, 0, 0, 0⟩ 7 64 5 he (by decide)

/-! ### C3: unsubscribe from within a firing callback -/

/-- C3 evaluated at a failing input: with listeners [0, 1] subscribed and
listener 0's onTick unsubscribing listener 0 itself, the firing pass
delivers only to listener 0 — listener 1, still subscribed and never
removed by anyone, is skipped, because the splice inside forEach shifts
it into the already-visited slot.  The third conjunct shows the splice
semantics of unsubscribe. -/
theorem unsubscribe_skips_listener :
    forEachFire [⟨0, [0]⟩, ⟨1, []⟩] = [0] ∧
    (1 : ℕ) ∉ forEachFire [⟨0, [0]⟩, ⟨1, []⟩] ∧
    unsubscribeAt [(⟨0, [0]⟩ : CbListener), ⟨1, []⟩] 0 = [⟨1, []⟩] := by
  decide

/-! ### C4: transient-unit teardown timing -/

/-- C4 evaluated at a failing input: with bpm 60 and start anchor 0, a
scheduling pass at external time 9.9 fires tick 40 with ideal time 10.0
(the full 100 ms lookahead); the four-on-floor pattern plays a kick
there (step 8, no swing) and the Deep House kit's clickAmount is
positive, so playClick runs with time = 10.0 — but its cleanup
setTimeout(50) counts from 9.9, so the teardown fires at 9.95, before
the click's audible end at 10.012 and even before the click starts. -/
theorem click_teardown_before_sound :
    targetTick 0 60 (99 / 10) = 40 ∧
    tickStartTime 0 60 40 = 10 ∧
    firesKick fourOnFloor 40 = true ∧
    0 < deepHouseKick.clickAmount ∧
    swingOffset (1 / 10) (beatPatternIndex fourOnFloor 40) = 0 ∧
    clickCleanupTime (99 / 10) < tickStartTime 0 60 40 ∧
    clickCleanupTime (99 / 10) < clickGainEndTime (tickStartTime 0 60 40) := by
  refine ⟨?_, ?_, ?_, ?_, ?_, ?_, ?_⟩
  · norm_num [targetTick, tickDuration, scheduleAhead]
  · norm_num [tickStartTime, tickDuration]
  · decide
  · norm_num [deepHouseKick]
  · have h8 : beatPatternIndex fourOnFloor 40 = 8 := by decide
    norm_num [swingOffset, h8]
  · norm_num [clickCleanupTime, tickStartTime, tickDuration]
  · norm_num [clickCleanupTime, clickGainEndTime, tickStartTime,
      tickDuration]

/-! ### C5: Modulator determinism -/

/-- C5: Modulator.getValue is deterministic: for a fixed time t and
unchanged config repeated calls return the same value, and two Modulator
instances constructed with identical (base, range, speed, seed) and
identical random offset return identical getValue(t) for every t — even
when the ambient Math.random() draw consumed by the seed fallback
differs, because a provided seed makes that draw unused. -/
theorem modulator_deterministic (noiseFromSeed : ℚ → ℚ → ℚ → ℚ)
    (cfg : ModulatorConfig) (s randSeed randSeed' randOffset t : ℚ)
    (hseed : cfg.seed = some s) :
    (mkModulator noiseFromSeed cfg randSeed randOffset).getValue t
      = (mkModulator noiseFromSeed cfg randSeed' randOffset).getValue t ∧
    (mkModulator noiseFromSeed cfg randSeed randOffset).getValue t
      = (mkModulator noiseFromSeed cfg randSeed randOffset).getValue t := by
  simp [mkModulator, Modulator.getValue, hseed]

/-- Witness for C5 at a concrete noise family, config, time, and two
different ambient random draws. -/
theorem modulator_deterministic_witness :
    (mkModulator (fun a b c => a + b + c) ⟨1, 2, 3, some 5⟩ 0 1).getValue 2
      = (mkModulator (fun a b c => a + b + c) ⟨1, 2, 3, some 5⟩ 7 1).getValue 2 ∧
    (mkModulator (fun a b c => a + b + c) ⟨1, 2, 3, some 5⟩ 0 1).getValue 2
      = (mkModulator (fun a b c => a + b + c) ⟨1, 2, 3, some 5⟩ 0 1).getValue 2 :=
  modulator_deterministic (fun a b c => a + b + c) ⟨1, 2, 3, some 5⟩ 5 0 7 1 2 rfl

/-! ### C6: Modulator output bounds -/

/-- A modulator whose range has been set to a negative value through the
public setRange, with a noise field inside the library's documented
envelope [-1, 1]. -/
def badRangeModulator : Modulator :=
  (mkModulator (fun _ _ _ => 0) ⟨0, 1, 1, some 0⟩ 0 0).setRange (-1)

/-- Counterexample to C6 as stated: after setRange(-1) — a config
reachable through the public mutators, which do not validate — getValue
does not lie in [base - range, base + range] (that interval is empty). -/
theorem modulator_range_counterexample :
    ¬ (badRangeModulator.base - badRangeModulator.range
          ≤ badRangeModulator.getValue 0 ∧
        badRangeModulator.getValue 0
          ≤ badRangeModulator.base + badRangeModulator.range) := by
  norm_num [badRangeModulator, mkModulator, Modulator.setRange,
    Modulator.getValue]

/-- C6 (amended): provided the configured range is nonnegative — as in
every config the repository constructs — getValue(t) lies in
[base - range, base + range], and getNormalized(t) lies in [0, 1]
unconditionally, given the library's noise envelope [-1, 1]. -/
theorem modulator_bounded (m : Modulator) (t : ℚ)
    (hn : ∀ x y, -1 ≤ m.noise x y ∧ m.noise x y ≤ 1) (hr : 0 ≤ m.range) :
    (m.base - m.range ≤ m.getValue t ∧ m.getValue t ≤ m.base + m.range) ∧
    (0 ≤ m.getNormalized t ∧ m.getNormalized t ≤ 1) := by
  obtain ⟨h1, h2⟩ := hn (t * m.speed) m.offset
  unfold Modulator.getValue Modulator.getNormalized
  refine ⟨⟨?_, ?_⟩, ?_, ?_⟩ <;> nlinarith

/-- A freshly constructed modulator with range 1 and a noise field inside
the documented envelope. -/
def inRangeModulator : Modulator :=
  mkModulator (fun _ _ _ => 0) ⟨0, 1, 1, some 0⟩ 0 0

/-- Witness for the amended C6 at a concrete modulator and time. -/
theorem modulator_bounded_witness :
    (inRangeModulator.base - inRangeModulator.range
        ≤ inRangeModulator.getValue 0 ∧
      inRangeModulator.getValue 0
        ≤ inRangeModulator.base + inRangeModulator.range) ∧
    (0 ≤ inRangeModulator.getNormalized 0 ∧
      inRangeModulator.getNormalized 0 ≤ 1) :=
  modulator_bounded inRangeModulator 0
    (fun x y => by norm_num [inRangeModulator, mkModulator])
    (by norm_num [inRangeModulator, mkModulator])

/-! ### C7: NodeCounter balance invariant -/

/-- Running a call sequence adds the created counts to the created
total. -/
theorem applyOps_created (c : NodeCounter) (ops : List CounterOp) :
    (applyOps c ops).created = c.created + (createCounts ops).sum := by
  induction ops generalizing c with
  | nil => simp [applyOps, createCounts]
  | cons o rest ih =>
    have h := ih (applyOp c o)
    cases o with
    | create n =>
      simp only [applyOps, List.foldl_cons] at h ⊢
      rw [h]
      simp [applyOp, NodeCounter.create, createCounts, List.filterMap_cons]
      omega
    | cleanup n =>
      simp only [applyOps, List.foldl_cons] at h ⊢
      rw [h]
      simp [applyOp, NodeCounter.cleanup, createCounts, List.filterMap_cons]

/-- Running a call sequence adds the cleanup counts to the cleaned
total. -/
theorem applyOps_cleaned (c : NodeCounter) (ops : List CounterOp) :
    (applyOps c ops).cleaned = c.cleaned + (cleanupCounts ops).sum := by
  induction ops generalizing c with
  | nil => simp [applyOps, cleanupCounts]
  | cons o rest ih =>
    have h := ih (applyOp c o)
    cases o with
    | create n =>
      simp only [applyOps, List.foldl_cons] at h ⊢
      rw [h]
      simp [applyOp, NodeCounter.create, cleanupCounts, List.filterMap_cons]
    | cleanup n =>
      simp only [applyOps, List.foldl_cons] at h ⊢
      rw [h]
      simp [applyOp, NodeCounter.cleanup, cleanupCounts, List.filterMap_cons]
      omega

/-- C7: for every sequence of create/cleanup calls in which every create
is matched by exactly one cleanup with the same count (the multiset of
cleanup counts is a permutation of the create counts), getActive() is 0
at the end; and after any prefix of the sequence, getStats() reports
active equal to the total created so far minus the total cleaned so
far. -/
theorem nodeCounter_balanced (ops : List CounterOp) (k : ℕ)
    (hmatch : (createCounts ops).Perm (cleanupCounts ops)) :
    (applyOps ⟨0, 0⟩ ops).getActive = 0 ∧
    ((applyOps ⟨0, 0⟩ (ops.take k)).getStats).active
      = ((createCounts (ops.take k)).sum : ℤ)
        - ((cleanupCounts (ops.take k)).sum : ℤ) := by
  constructor
  · have h := hmatch.sum_eq
    simp [NodeCounter.getActive, applyOps_created, applyOps_cleaned, h]
  · simp [NodeCounter.getStats, applyOps_created, applyOps_cleaned]

/-- Witness for C7: two creates of counts 2 and 1, each matched by one
cleanup of the same count, end with active 0; after the first three
calls the reported active is 2. -/
theorem nodeCounter_balanced_witness :
    (applyOps ⟨0, 0⟩ [CounterOp.create 2, CounterOp.create 1,
        CounterOp.cleanup 1, CounterOp.cleanup 2]).getActive = 0 ∧
    ((applyOps ⟨0, 0⟩ ([CounterOp.create 2, CounterOp.create 1,
        CounterOp.cleanup 1, CounterOp.cleanup 2].take 3)).getStats).active
      = ((createCounts ([CounterOp.create 2, CounterOp.create 1,
          CounterOp.cleanup 1, CounterOp.cleanup 2].take 3)).sum : ℤ)
        - ((cleanupCounts ([CounterOp.create 2, CounterOp.create 1,
          CounterOp.cleanup 1, CounterOp.cleanup 2].take 3)).sum : ℤ) :=
  nodeCounter_balanced [CounterOp.create 2, CounterOp.create 1,
    CounterOp.cleanup 1, CounterOp.cleanup 2] 3 (by decide)

/-! ### C8: setBpm clamping -/

/-- C8: for every argument, setBpm stores a bpm inside [60, 140],
observable through getBpm; setBpm(500) yields 140 and setBpm(10) yields
60; and the tickDuration the next scheduling pass reads is computed from
the clamped value. -/
theorem setBpm_clamps (c : Clock) (x : ℚ) :
    (60 ≤ (c.setBpm x).getBpm ∧ (c.setBpm x).getBpm ≤ 140) ∧
    (c.setBpm 500).getBpm = 140 ∧ (c.setBpm 10).getBpm = 60 ∧
    tickDuration (c.setBpm x).bpm = 60 / clampBpm x / 4 := by
  refine ⟨⟨le_max_left _ _, max_le (by norm_num) (min_le_left _ _)⟩,
    ?_, ?_, rfl⟩
  · show clampBpm 500 = 140
    norm_num [clampBpm]
  · show clampBpm 10 = 60
    norm_num [clampBpm]

/-! ### C9: layer stop callbacks absorb stop() exceptions -/

/-- C9: the deferred hard-stop callbacks of the texture, pad and beat
layers never surface an error, for every state of the underlying
source(s) — never started, started, or already stopped — because each
stop() call is wrapped in its own try/catch; and the absorbed exception
is real: stop() on a never-started source throws InvalidStateError. -/
theorem layer_stop_silent :
    (∀ src : Option SourceState, textureDeferredStop src = .ok ()) ∧
    (∀ oscs : List SourceState, padDeferredStop oscs = .ok ()) ∧
    (∀ subOsc : Option SourceState, beatDeferredStop subOsc = .ok ()) ∧
    sourceStop .created = .error "InvalidStateError" := by
  have htry : ∀ s : SourceState, tryStopStmt s = .ok () := by
    intro s
    cases s <;> rfl
  refine ⟨?_, ?_, ?_, rfl⟩
  · rintro (_ | s)
    · rfl
    · exact htry s
  · intro oscs
    induction oscs with
    | nil => rfl
    | cons s rest ih =>
      simp only [padDeferredStop, List.map_cons, seqAll, htry s] at ih ⊢
      exact ih
  · rintro (_ | s)
    · rfl
    · exact htry s

/-! ### C10: the pad layer's chord mutation restores the shared root -/

/-- C10: the deferred chord-mutation callback of PadLayer.onPhrase leaves
engine.state exactly as it found it (in particular the root), while the
chord it hands to startOscillators is built from the temporarily shifted
root clamped to [36, 60]. -/
theorem chordMutation_restores_root (st : EngineState) (interval : ℤ) :
    (chordMutationCallback st interval).1 = st ∧
    (chordMutationCallback st interval).2
      = buildChord { st with root := clampRoot (st.root + interval) } ∧
    36 ≤ clampRoot (st.root + interval) ∧
    clampRoot (st.root + interval) ≤ 60 := by
  refine ⟨?_, rfl, ?_, ?_⟩
  · cases st
    rfl
  · exact le_max_left _ _
  · exact max_le (by norm_num) (min_le_left _ _)

end FocusMusic
